import Mathlib

/-!
Verification of the `diversity` package (similarity-sensitive diversity
indices) against its natural-language specification.

The numeric arrays of the Python code are embedded as matrices over `ℚ`
(the counts are integers and all test similarities are rational, so exact
rational arithmetic models the ideal real-number semantics of the float
code).  Where numpy produces non-finite floats (NaN or infinities, e.g. on
division by zero, which numpy reports with a warning and not an exception)
the embedding uses `Option ℚ`, with `none` standing for any non-finite
float value.

`diversity/utilities.py` (which defines `power_mean`) and
`diversity/shared.py` are not part of the sources; the corresponding
definitions below are modelled from the specification and marked as such.
-/

/-! ## Non-finite aware scalar arithmetic

`Option ℚ` models a float: `some q` is the finite value `q`, `none` is any
non-finite float (NaN or an infinity).  numpy propagates non-finite values
through arithmetic; division of a finite value by zero yields a non-finite
value (±inf or NaN) together with a runtime warning, never an exception. -/

/-- Addition of possibly non-finite values: non-finite operands propagate. -/
def nadd : Option ℚ → Option ℚ → Option ℚ
  | some a, some b => some (a + b)
  | _, _ => none

/-- Multiplication of possibly non-finite values: non-finite operands
propagate (this abstracts the numpy facts ``nan * x = nan``,
``inf * 0 = nan``, ``inf * x = ±inf``: the result is never finite). -/
def nmul : Option ℚ → Option ℚ → Option ℚ
  | some a, some b => some (a * b)
  | _, _ => none

/-- Division of possibly non-finite values: division by zero yields a
non-finite value (``0/0 = nan``, ``x/0 = ±inf``); non-finite operands
yield a non-finite result in all cases exercised by this development. -/
def ndiv : Option ℚ → Option ℚ → Option ℚ
  | some a, some b => if b = 0 then none else some (a / b)
  | _, _ => none

/-- numpy summation of a list of possibly non-finite values: the sum of an
empty list is `0`, and any non-finite summand makes the result
non-finite. -/
def nsum (l : List (Option ℚ)) : Option ℚ := l.foldr nadd (some 0)

theorem nsum_map_some {α : Type} (l : List α) (g : α → ℚ) :
    nsum (l.map (fun x => some (g x))) = some ((l.map g).sum) := by
  induction l with
  | nil => rfl
  | cons a l ih => simp [nsum, List.foldr] at ih ⊢; rw [ih]; rfl

/-! ## Abundance (src/src/diversity/metacommunity.py, class `Abundance`)

`counts` is the species × subcommunity count matrix (exact integers in the
code, embedded as rationals). -/

/-- Grand sum `counts.sum()` of the counts matrix. -/
def total_count {m n : ℕ} (counts : Matrix (Fin m) (Fin n) ℚ) : ℚ :=
  ∑ i, ∑ j, counts i j

/-- Column sum of the counts matrix (used below). -/
def column_total {m n : ℕ} (counts : Matrix (Fin m) (Fin n) ℚ) (j : Fin n) : ℚ :=
  ∑ i, counts i j

/-- Row sum of the counts matrix (used below). -/
def row_total {m n : ℕ} (counts : Matrix (Fin m) (Fin n) ℚ) (i : Fin m) : ℚ :=
  ∑ j, counts i j

/-- `Abundance.subcommunity_abundance`: `counts / total_abundance`,
element-wise (numpy true division: non-finite when the total is zero). -/
def Abundance.subcommunity_abundance {m n : ℕ} (counts : Matrix (Fin m) (Fin n) ℚ) :
    Fin m → Fin n → Option ℚ :=
  fun i j => ndiv (some (counts i j)) (some (total_count counts))

/-- `Abundance.metacommunity_abundance`: row sums of
`subcommunity_abundance` (`sum(axis=1, keepdims=True)`, embedded without
the trivial second axis). -/
def Abundance.metacommunity_abundance {m n : ℕ} (counts : Matrix (Fin m) (Fin n) ℚ) :
    Fin m → Option ℚ :=
  fun i => nsum ((List.finRange n).map (fun j => Abundance.subcommunity_abundance counts i j))

/-- `Abundance.subcommunity_normalizing_constants`: column sums of
`subcommunity_abundance` (`sum(axis=0)`). -/
def Abundance.subcommunity_normalizing_constants {m n : ℕ}
    (counts : Matrix (Fin m) (Fin n) ℚ) : Fin n → Option ℚ :=
  fun j => nsum ((List.finRange m).map (fun i => Abundance.subcommunity_abundance counts i j))

/-- `Abundance.normalized_subcommunity_abundance`: `subcommunity_abundance`
divided column-wise by the normalizing constants. -/
def Abundance.normalized_subcommunity_abundance {m n : ℕ}
    (counts : Matrix (Fin m) (Fin n) ℚ) : Fin m → Fin n → Option ℚ :=
  fun i j =>
    ndiv (Abundance.subcommunity_abundance counts i j)
      (Abundance.subcommunity_normalizing_constants counts j)

/-- Sum of all entries of a possibly non-finite matrix (row-major, as
`ndarray.sum` totals every entry). -/
def nsum_matrix {m n : ℕ} (A : Fin m → Fin n → Option ℚ) : Option ℚ :=
  nsum ((List.finRange m).map (fun i => nsum ((List.finRange n).map (fun j => A i j))))

theorem sub_abund_of_total_ne_zero {m n : ℕ} (counts : Matrix (Fin m) (Fin n) ℚ)
    (h : total_count counts ≠ 0) (i : Fin m) (j : Fin n) :
    Abundance.subcommunity_abundance counts i j = some (counts i j / total_count counts) := by
  simp [Abundance.subcommunity_abundance, ndiv, h]

theorem nsum_finRange_some {k : ℕ} (g : Fin k → ℚ) :
    nsum ((List.finRange k).map (fun x => some (g x))) = some (∑ x, g x) := by
  rw [nsum_map_some, Fin.sum_univ_def]

theorem meta_abund_of_total_ne_zero {m n : ℕ} (counts : Matrix (Fin m) (Fin n) ℚ)
    (h : total_count counts ≠ 0) (i : Fin m) :
    Abundance.metacommunity_abundance counts i =
      some (row_total counts i / total_count counts) := by
  unfold Abundance.metacommunity_abundance
  simp only [sub_abund_of_total_ne_zero counts h]
  rw [nsum_finRange_some, ← Finset.sum_div, row_total]

theorem norm_const_of_total_ne_zero {m n : ℕ} (counts : Matrix (Fin m) (Fin n) ℚ)
    (h : total_count counts ≠ 0) (j : Fin n) :
    Abundance.subcommunity_normalizing_constants counts j =
      some (column_total counts j / total_count counts) := by
  unfold Abundance.subcommunity_normalizing_constants
  simp only [sub_abund_of_total_ne_zero counts h]
  rw [nsum_finRange_some, ← Finset.sum_div, column_total]

theorem norm_abund_of_col_ne_zero {m n : ℕ} (counts : Matrix (Fin m) (Fin n) ℚ)
    (h : total_count counts ≠ 0) (j : Fin n) (hc : column_total counts j ≠ 0) (i : Fin m) :
    Abundance.normalized_subcommunity_abundance counts i j =
      some (counts i j / column_total counts j) := by
  unfold Abundance.normalized_subcommunity_abundance
  rw [sub_abund_of_total_ne_zero counts h, norm_const_of_total_ne_zero counts h]
  have hq : column_total counts j / total_count counts ≠ 0 := div_ne_zero hc h
  simp only [ndiv, hq, if_neg hq]
  field_simp

/-- C7: for every counts matrix with positive grand total, the entries of
`Abundance.subcommunity_abundance` sum to 1 over the whole matrix and the
entries of `Abundance.metacommunity_abundance` sum to 1 (exactly, hence
within the 1e-9 tolerance); when additionally every subcommunity column
total is positive, each column of `normalized_subcommunity_abundance`
sums to 1 independently. -/
theorem C7_abundance_sums_to_one {m n : ℕ} (counts : Matrix (Fin m) (Fin n) ℚ)
    (h : 0 < total_count counts) :
    nsum_matrix (Abundance.subcommunity_abundance counts) = some 1 ∧
    nsum ((List.finRange m).map (Abundance.metacommunity_abundance counts)) = some 1 ∧
    ((∀ j, 0 < column_total counts j) → ∀ j,
      nsum ((List.finRange m).map
        (fun i => Abundance.normalized_subcommunity_abundance counts i j)) = some 1) := by
  have hne : total_count counts ≠ 0 := ne_of_gt h
  refine ⟨?_, ?_, ?_⟩
  · unfold nsum_matrix
    simp only [sub_abund_of_total_ne_zero counts hne, nsum_finRange_some]
    simp only [← Finset.sum_div]
    show some (total_count counts / total_count counts) = some 1
    rw [div_self hne]
  · have hfun : Abundance.metacommunity_abundance counts =
        fun i => some (row_total counts i / total_count counts) :=
      funext (meta_abund_of_total_ne_zero counts hne)
    rw [hfun, nsum_finRange_some]
    simp only [← Finset.sum_div]
    have hrt : ∑ i, row_total counts i = total_count counts := rfl
    rw [hrt, div_self hne]
  · intro hcols j
    simp only [norm_abund_of_col_ne_zero counts hne j (ne_of_gt (hcols j))]
    rw [nsum_finRange_some, ← Finset.sum_div]
    show some (column_total counts j / column_total counts j) = some 1
    rw [div_self (ne_of_gt (hcols j))]

/-- Concrete counts matrix with positive total and positive column totals. -/
def witness_counts : Matrix (Fin 2) (Fin 2) ℚ := fun i j => if i = j then 1 else 2

theorem C7_abundance_sums_to_one_witness :
    0 < total_count witness_counts ∧
    nsum_matrix (Abundance.subcommunity_abundance witness_counts) = some 1 ∧
    nsum ((List.finRange 2).map (Abundance.metacommunity_abundance witness_counts)) = some 1 ∧
    nsum ((List.finRange 2).map
      (fun i => Abundance.normalized_subcommunity_abundance witness_counts i 0)) = some 1 := by
  have htot : 0 < total_count witness_counts := by
    norm_num [total_count, witness_counts, Fin.sum_univ_two]
  have hcols : ∀ j, 0 < column_total witness_counts j := by
    intro j
    fin_cases j <;> norm_num [column_total, witness_counts, Fin.sum_univ_two]
  exact ⟨htot, (C7_abundance_sums_to_one witness_counts htot).1,
    (C7_abundance_sums_to_one witness_counts htot).2.1,
    (C7_abundance_sums_to_one witness_counts htot).2.2 hcols 0⟩

/-- C8 (amended): degenerate normalization does not raise.  When the grand
total of counts is 0, `Abundance.subcommunity_abundance` completes and
every entry is non-finite (numpy emits a warning and produces NaN, it
never raises).  With a positive grand total, every entry of the raw
`subcommunity_abundance` is the finite value `counts i j / total`, and a
zero-total subcommunity column makes every entry of that column of
`normalized_subcommunity_abundance` non-finite, again without raising. -/
theorem C8_degenerate_normalization {m n : ℕ} (counts : Matrix (Fin m) (Fin n) ℚ) :
    (total_count counts = 0 →
      ∀ i j, Abundance.subcommunity_abundance counts i j = none) ∧
    (0 < total_count counts →
      (∀ i j, Abundance.subcommunity_abundance counts i j =
        some (counts i j / total_count counts)) ∧
      (∀ j, column_total counts j = 0 → ∀ i,
        Abundance.normalized_subcommunity_abundance counts i j = none)) := by
  constructor
  · intro h i j
    simp [Abundance.subcommunity_abundance, ndiv, h]
  · intro h
    have hne : total_count counts ≠ 0 := ne_of_gt h
    refine ⟨sub_abund_of_total_ne_zero counts hne, ?_⟩
    intro j hcol i
    unfold Abundance.normalized_subcommunity_abundance
    rw [sub_abund_of_total_ne_zero counts hne, norm_const_of_total_ne_zero counts hne]
    simp [ndiv, hcol]

/-- Counts matrix whose grand total is zero. -/
def zero_counts : Matrix (Fin 2) (Fin 2) ℚ := fun _ _ => 0

/-- Counts matrix with positive grand total whose second column total is
zero. -/
def column_zero_counts : Matrix (Fin 2) (Fin 2) ℚ := fun _ j => if j = 0 then 1 else 0

/-- C8 counterexample to the claim as stated: the claim says these
degenerate normalizations raise a domain error, but the code performs a
plain numpy true division, which completes and fills the result with
non-finite values (`none`); no exception is raised, and with a zero-total
second column the raw `subcommunity_abundance` stays finite while
`normalized_subcommunity_abundance` silently yields non-finite entries
in that column. -/
theorem C8_counterexample :
    total_count zero_counts = 0 ∧
    Abundance.subcommunity_abundance zero_counts 0 0 = none ∧
    Abundance.subcommunity_abundance zero_counts 1 1 = none ∧
    0 < total_count column_zero_counts ∧
    column_total column_zero_counts 1 = 0 ∧
    Abundance.subcommunity_abundance column_zero_counts 0 1 = some 0 ∧
    Abundance.normalized_subcommunity_abundance column_zero_counts 0 1 = none := by
  have h0 : total_count zero_counts = 0 := by
    norm_num [total_count, zero_counts, Fin.sum_univ_two]
  have h1 : total_count column_zero_counts = 2 := by
    norm_num [total_count, column_zero_counts, Fin.sum_univ_two]
  have h2 : column_total column_zero_counts 1 = 0 := by
    norm_num [column_total, column_zero_counts, Fin.sum_univ_two]
  refine ⟨h0, ?_, ?_, by rw [h1]; norm_num, h2, ?_, ?_⟩
  · simp [Abundance.subcommunity_abundance, ndiv, h0]
  · simp [Abundance.subcommunity_abundance, ndiv, h0]
  · rw [sub_abund_of_total_ne_zero column_zero_counts (by rw [h1]; norm_num)]
    norm_num [column_zero_counts]
  · unfold Abundance.normalized_subcommunity_abundance
    rw [sub_abund_of_total_ne_zero column_zero_counts (by rw [h1]; norm_num),
      norm_const_of_total_ne_zero column_zero_counts (by rw [h1]; norm_num)]
    simp [ndiv, h2]

theorem C8_degenerate_normalization_witness :
    Abundance.subcommunity_abundance zero_counts 0 1 = none ∧
    Abundance.normalized_subcommunity_abundance column_zero_counts 1 1 = none :=
  ⟨(C8_degenerate_normalization zero_counts).1
      (by norm_num [total_count, zero_counts, Fin.sum_univ_two]) 0 1,
    ((C8_degenerate_normalization column_zero_counts).2
      (by norm_num [total_count, column_zero_counts, Fin.sum_univ_two])).2 1
      (by norm_num [column_total, column_zero_counts, Fin.sum_univ_two]) 1⟩

/-! ## SharedAbundance (src/src/diversity/metacommunity.py, class
`SharedAbundance`)

The object keeps a single shared buffer and rescales it in place; the tag
`stores` records which quantity the buffer currently holds (the class
attributes `counts`/`subcommunity_abundances`/`normalized_subcommunity_abundances`
of the source).  The buffer entries are possibly non-finite floats.  The
shared-array plumbing (`diversity/shared.py`, not in src) is
value-irrelevant here: a `SharedArrayView` wraps an ordinary numpy array,
and its `sum` is modelled from the spec as numpy summation written into
the freshly allocated metacommunity buffer. -/

/-- Which quantity the shared buffer currently stores. -/
inductive StoredQuantity
  | count
  | subcommunity
  | normalized
deriving DecidableEq

/-- State of a `SharedAbundance` object: the shared buffer, the tag of the
quantity it stores, the cached metacommunity abundance buffer (allocated
on first use), and the two constants computed at `__init__` from the raw
counts (`__total_abundance` and `__subcommunity_normalizing_constants`). -/
structure SharedAbundance (m n : ℕ) where
  buffer : Fin m → Fin n → Option ℚ
  stores : StoredQuantity
  metaCache : Option (Fin m → Option ℚ)
  total_abundance : ℚ
  normalizing_constants : Fin n → Option ℚ

/-- `SharedAbundance.__init__`: the buffer holds the raw counts,
`__total_abundance = data.sum()` and
`__subcommunity_normalizing_constants = data.sum(axis=0) / total`. -/
def SharedAbundance.init {m n : ℕ} (counts : Matrix (Fin m) (Fin n) ℚ) :
    SharedAbundance m n where
  buffer := fun i j => some (counts i j)
  stores := .count
  metaCache := none
  total_abundance := total_count counts
  normalizing_constants := fun j =>
    ndiv (some (column_total counts j)) (some (total_count counts))

/-- `SharedAbundance.subcommunity_abundance`: rescales the shared buffer in
place (`data /= total` from counts, `data *= constants` from normalized
form, nothing when already stored), retags it, and returns it. -/
def SharedAbundance.subcommunity_abundance {m n : ℕ} (s : SharedAbundance m n) :
    (Fin m → Fin n → Option ℚ) × SharedAbundance m n :=
  let buf :=
    match s.stores with
    | .count => fun i j => ndiv (s.buffer i j) (some s.total_abundance)
    | .normalized => fun i j => nmul (s.buffer i j) (s.normalizing_constants j)
    | .subcommunity => s.buffer
  (buf, { s with buffer := buf, stores := .subcommunity })

/-- `SharedAbundance.normalized_subcommunity_abundance`: rescales the
shared buffer in place (`data /= (total * constants)` from counts,
`data /= constants` from subcommunity form, nothing when already stored),
retags it, and returns it. -/
def SharedAbundance.normalized_subcommunity_abundance {m n : ℕ}
    (s : SharedAbundance m n) :
    (Fin m → Fin n → Option ℚ) × SharedAbundance m n :=
  let buf :=
    match s.stores with
    | .count => fun i j =>
        ndiv (s.buffer i j) (nmul (some s.total_abundance) (s.normalizing_constants j))
    | .subcommunity => fun i j => ndiv (s.buffer i j) (s.normalizing_constants j)
    | .normalized => s.buffer
  (buf, { s with buffer := buf, stores := .normalized })

/-- `SharedAbundance.subcommunity_normalizing_constants`: returns the
constants computed at initialization; no state change. -/
def SharedAbundance.subcommunity_normalizing_constants {m n : ℕ}
    (s : SharedAbundance m n) : Fin n → Option ℚ :=
  s.normalizing_constants

/-- `SharedAbundance.metacommunity_abundance`: on first access, allocates a
`(n_species, 1)` buffer, writes the row sums of the shared buffer into it,
then adjusts it (`/= total` when counts are stored, `*= constants` when
normalized abundances are stored).  The `*=` adjustment multiplies the
`(n_species, 1)` buffer in place by the length-`n` constants vector, which
numpy rejects as a non-broadcastable in-place operand unless `n = 1`;
this error is modelled as `Except.error ()`.  The result is cached and
returned unchanged on later accesses. -/
def SharedAbundance.metacommunity_abundance {m n : ℕ} (s : SharedAbundance m n) :
    Except Unit ((Fin m → Option ℚ) × SharedAbundance m n) :=
  match s.metaCache with
  | some v => .ok (v, s)
  | none =>
    let rows : Fin m → Option ℚ :=
      fun i => nsum ((List.finRange n).map (fun j => s.buffer i j))
    match s.stores with
    | .count =>
      let v := fun i => ndiv (rows i) (some s.total_abundance)
      .ok (v, { s with metaCache := some v })
    | .subcommunity => .ok (rows, { s with metaCache := some rows })
    | .normalized =>
      if h : n = 1 then
        let v := fun i => nmul (rows i) (s.normalizing_constants ⟨0, h ▸ Nat.one_pos⟩)
        .ok (v, { s with metaCache := some v })
      else .error ()

/-- The four accessors of the `IAbundance` interface. -/
inductive AbundanceAccessor
  | sub
  | meta
  | consts
  | norm
deriving DecidableEq

/-- State transition performed by calling one accessor. -/
def SharedAbundance.step {m n : ℕ} (s : SharedAbundance m n) :
    AbundanceAccessor → Except Unit (SharedAbundance m n)
  | .sub => .ok s.subcommunity_abundance.2
  | .norm => .ok s.normalized_subcommunity_abundance.2
  | .consts => .ok s
  | .meta => s.metacommunity_abundance.map Prod.snd

/-- Run a sequence of accessor calls from a state, stopping at the first
error. -/
def SharedAbundance.run {m n : ℕ} (s : SharedAbundance m n) :
    List AbundanceAccessor → Except Unit (SharedAbundance m n)
  | [] => .ok s
  | a :: L =>
    match s.step a with
    | .error e => .error e
    | .ok s1 => s1.run L

/-- What the shared buffer holds, per tag, in exact arithmetic, for a
counts matrix with positive grand total and positive column totals. -/
def canonical_buffer {m n : ℕ} (counts : Matrix (Fin m) (Fin n) ℚ) :
    StoredQuantity → Fin m → Fin n → Option ℚ
  | .count => fun i j => some (counts i j)
  | .subcommunity => fun i j => some (counts i j / total_count counts)
  | .normalized => fun i j => some (counts i j / column_total counts j)

/-- The metacommunity abundance in exact arithmetic. -/
def plain_meta {m n : ℕ} (counts : Matrix (Fin m) (Fin n) ℚ) : Fin m → Option ℚ :=
  fun i => some (row_total counts i / total_count counts)

/-- Invariant tying a reachable `SharedAbundance` state to its originating
counts matrix. -/
def SharedInv {m n : ℕ} (counts : Matrix (Fin m) (Fin n) ℚ)
    (s : SharedAbundance m n) : Prop :=
  s.total_abundance = total_count counts ∧
  s.normalizing_constants =
    (fun j => some (column_total counts j / total_count counts)) ∧
  s.buffer = canonical_buffer counts s.stores ∧
  (s.metaCache = none ∨ s.metaCache = some (plain_meta counts))

theorem sharedInv_init {m n : ℕ} (counts : Matrix (Fin m) (Fin n) ℚ)
    (htot : 0 < total_count counts) :
    SharedInv counts (SharedAbundance.init counts) := by
  have hne : total_count counts ≠ 0 := ne_of_gt htot
  refine ⟨rfl, ?_, rfl, Or.inl rfl⟩
  funext j
  simp [SharedAbundance.init, ndiv, hne]

theorem sharedInv_sub {m n : ℕ} (counts : Matrix (Fin m) (Fin n) ℚ)
    (htot : 0 < total_count counts) (hcol : ∀ j, 0 < column_total counts j)
    (s : SharedAbundance m n) (hs : SharedInv counts s) :
    s.subcommunity_abundance.1 = canonical_buffer counts .subcommunity ∧
    SharedInv counts s.subcommunity_abundance.2 := by
  obtain ⟨hT, hK, hB, hM⟩ := hs
  have hne : total_count counts ≠ 0 := ne_of_gt htot
  have hbuf : s.subcommunity_abundance.1 = canonical_buffer counts .subcommunity := by
    unfold SharedAbundance.subcommunity_abundance
    cases hst : s.stores <;> simp only [hst, hT, hK, hB]
    · funext i j
      simp [canonical_buffer, ndiv, hne]
    · funext i j
      have hcne : column_total counts j ≠ 0 := ne_of_gt (hcol j)
      simp only [canonical_buffer, nmul]
      rw [Option.some.injEq]
      field_simp
  refine ⟨hbuf, hT, hK, ?_, hM⟩
  show s.subcommunity_abundance.1 = _
  rw [hbuf]; rfl

theorem sharedInv_norm {m n : ℕ} (counts : Matrix (Fin m) (Fin n) ℚ)
    (htot : 0 < total_count counts) (hcol : ∀ j, 0 < column_total counts j)
    (s : SharedAbundance m n) (hs : SharedInv counts s) :
    s.normalized_subcommunity_abundance.1 = canonical_buffer counts .normalized ∧
    SharedInv counts s.normalized_subcommunity_abundance.2 := by
  obtain ⟨hT, hK, hB, hM⟩ := hs
  have hne : total_count counts ≠ 0 := ne_of_gt htot
  have hbuf : s.normalized_subcommunity_abundance.1 =
      canonical_buffer counts .normalized := by
    unfold SharedAbundance.normalized_subcommunity_abundance
    cases hst : s.stores <;> simp only [hst, hT, hK, hB]
    · funext i j
      have hcne : column_total counts j ≠ 0 := ne_of_gt (hcol j)
      have hprod : total_count counts * (column_total counts j / total_count counts) =
          column_total counts j := by field_simp
      simp only [canonical_buffer, nmul, ndiv, hprod, if_neg hcne]
    · funext i j
      have hcne : column_total counts j ≠ 0 := ne_of_gt (hcol j)
      have hq : column_total counts j / total_count counts ≠ 0 := div_ne_zero hcne hne
      simp only [canonical_buffer, ndiv, if_neg hq]
      rw [Option.some.injEq]
      field_simp
  refine ⟨hbuf, hT, hK, ?_, hM⟩
  show s.normalized_subcommunity_abundance.1 = _
  rw [hbuf]; rfl

theorem sharedInv_meta {m n : ℕ} (counts : Matrix (Fin m) (Fin n) ℚ)
    (htot : 0 < total_count counts) (hcol : ∀ j, 0 < column_total counts j)
    (s : SharedAbundance m n) (hs : SharedInv counts s) :
    ∀ v s2, s.metacommunity_abundance = .ok (v, s2) →
      v = plain_meta counts ∧ SharedInv counts s2 := by
  obtain ⟨hT, hK, hB, hM⟩ := hs
  have hne : total_count counts ≠ 0 := ne_of_gt htot
  intro v s2 h
  unfold SharedAbundance.metacommunity_abundance at h
  rcases hMC : s.metaCache with _ | w
  · rw [hMC] at h
    have hrows : ∀ hst : StoredQuantity, s.stores = hst →
        (fun i => nsum ((List.finRange n).map (fun j => s.buffer i j))) =
          (fun i => nsum ((List.finRange n).map
            (fun j => canonical_buffer counts hst i j))) := by
      intro hst hsteq
      rw [hB, hsteq]
    cases hst : s.stores
    · rw [hst] at h
      simp only [] at h
      have hv : (fun i => ndiv (nsum ((List.finRange n).map (fun j => s.buffer i j)))
          (some s.total_abundance)) = plain_meta counts := by
        funext i
        rw [hB, hst, hT]
        show ndiv (nsum ((List.finRange n).map
          (fun j => some (counts i j)))) (some (total_count counts)) = _
        rw [nsum_finRange_some]
        simp [ndiv, hne, plain_meta, row_total]
      rw [hv] at h
      injection h with h1
      injection h1 with hveq hs2
      refine ⟨hveq.symm, ?_⟩
      rw [← hs2]
      exact ⟨hT, hK, hst ▸ hB, Or.inr rfl⟩
    · rw [hst] at h
      simp only [] at h
      have hv : (fun i => nsum ((List.finRange n).map (fun j => s.buffer i j))) =
          plain_meta counts := by
        funext i
        rw [hB, hst]
        show nsum ((List.finRange n).map
          (fun j => some (counts i j / total_count counts))) = _
        rw [nsum_finRange_some, ← Finset.sum_div]
        simp [plain_meta, row_total]
      rw [hv] at h
      injection h with h1
      injection h1 with hveq hs2
      refine ⟨hveq.symm, ?_⟩
      rw [← hs2]
      exact ⟨hT, hK, hst ▸ hB, Or.inr rfl⟩
    · rw [hst] at h
      simp only [] at h
      by_cases hn : n = 1
      · subst hn
        rw [dif_pos rfl] at h
        have hv : (fun i => nmul (nsum ((List.finRange 1).map (fun j => s.buffer i j)))
            (s.normalizing_constants ⟨0, Nat.one_pos⟩)) = plain_meta counts := by
          funext i
          rw [hB, hst, hK]
          show nmul (nsum ((List.finRange 1).map
              (fun j => some (counts i j / column_total counts j))))
            (some (column_total counts (⟨0, Nat.one_pos⟩ : Fin 1) / total_count counts)) = _
          rw [nsum_finRange_some]
          have hc0 : column_total counts (⟨0, Nat.one_pos⟩ : Fin 1) ≠ 0 :=
            ne_of_gt (hcol _)
          have hsum : (∑ x : Fin 1, counts i x / column_total counts x) =
              counts i ⟨0, Nat.one_pos⟩ / column_total counts ⟨0, Nat.one_pos⟩ :=
            Fin.sum_univ_one _
          rw [hsum]
          have hrt : row_total counts i = counts i ⟨0, Nat.one_pos⟩ :=
            Fin.sum_univ_one _
          simp only [nmul, plain_meta, hrt, Option.some.injEq]
          field_simp
          rw [mul_assoc]
          exact mul_div_cancel_right₀ _ (mul_ne_zero hc0 hne)
        rw [hv] at h
        injection h with h1
        injection h1 with hveq hs2
        refine ⟨hveq.symm, ?_⟩
        rw [← hs2]
        exact ⟨hT, hK, hst ▸ hB, Or.inr rfl⟩
      · rw [dif_neg hn] at h
        exact absurd h (by simp)
  · rw [hMC] at h
    rcases hM with hM0 | hM0
    · rw [hMC] at hM0
      exact absurd hM0 (by simp)
    · rw [hMC] at hM0
      injection hM0 with hw
      injection h with h1
      injection h1 with hveq hs2
      refine ⟨by rw [← hveq, hw], ?_⟩
      rw [← hs2]
      exact ⟨hT, hK, hB, Or.inr (hMC.trans (by rw [hw]))⟩

theorem sharedInv_step {m n : ℕ} (counts : Matrix (Fin m) (Fin n) ℚ)
    (htot : 0 < total_count counts) (hcol : ∀ j, 0 < column_total counts j)
    (s : SharedAbundance m n) (hs : SharedInv counts s) (a : AbundanceAccessor)
    (s1 : SharedAbundance m n) (h : s.step a = .ok s1) : SharedInv counts s1 := by
  cases a
  · injection h with h1
    rw [← h1]
    exact (sharedInv_sub counts htot hcol s hs).2
  · unfold SharedAbundance.step at h
    rcases hm : s.metacommunity_abundance with e | p
    · rw [hm] at h
      exact absurd h (by simp [Except.map])
    · rw [hm] at h
      have := (sharedInv_meta counts htot hcol s hs p.1 p.2 (by rw [hm])).2
      simp only [Except.map] at h
      injection h with h1
      rw [← h1]
      exact this
  · injection h with h1
    rw [← h1]
    exact hs
  · injection h with h1
    rw [← h1]
    exact (sharedInv_norm counts htot hcol s hs).2

theorem sharedInv_run {m n : ℕ} (counts : Matrix (Fin m) (Fin n) ℚ)
    (htot : 0 < total_count counts) (hcol : ∀ j, 0 < column_total counts j) :
    ∀ (L : List AbundanceAccessor) (s0 s : SharedAbundance m n),
      SharedInv counts s0 → s0.run L = .ok s → SharedInv counts s := by
  intro L
  induction L with
  | nil =>
    intro s0 s h0 hrun
    injection hrun with h1
    rw [← h1]
    exact h0
  | cons a L ih =>
    intro s0 s h0 hrun
    unfold SharedAbundance.run at hrun
    rcases hstep : s0.step a with e | s1
    · rw [hstep] at hrun
      exact absurd hrun (by simp)
    · rw [hstep] at hrun
      exact ih s1 s (sharedInv_step counts htot hcol s0 h0 a s1 hstep) hrun

/-- C3 (amended): for every counts matrix with positive grand total and
positive column totals, after any sequence of accessor calls that
completes without error, `SharedAbundance` returns the same values as the
plain `Abundance` implementation for `subcommunity_abundance`,
`normalized_subcommunity_abundance` and
`subcommunity_normalizing_constants`, whatever scaled version the shared
buffer currently stores; `metacommunity_abundance` also agrees whenever
it succeeds (its first access fails with a numpy broadcast error when the
buffer stores normalized abundances and there are at least two
subcommunities). -/
theorem C3_shared_abundance_refinement {m n : ℕ} (counts : Matrix (Fin m) (Fin n) ℚ)
    (htot : 0 < total_count counts) (hcol : ∀ j, 0 < column_total counts j)
    (L : List AbundanceAccessor) (s : SharedAbundance m n)
    (hrun : (SharedAbundance.init counts).run L = .ok s) :
    s.subcommunity_abundance.1 = Abundance.subcommunity_abundance counts ∧
    s.normalized_subcommunity_abundance.1 =
      Abundance.normalized_subcommunity_abundance counts ∧
    s.subcommunity_normalizing_constants =
      Abundance.subcommunity_normalizing_constants counts ∧
    (∀ v s2, s.metacommunity_abundance = .ok (v, s2) →
      v = Abundance.metacommunity_abundance counts) := by
  have hne : total_count counts ≠ 0 := ne_of_gt htot
  have hinv := sharedInv_run counts htot hcol L (SharedAbundance.init counts) s
    (sharedInv_init counts htot) hrun
  have hA1 : Abundance.subcommunity_abundance counts =
      canonical_buffer counts .subcommunity :=
    funext fun i => funext fun j => sub_abund_of_total_ne_zero counts hne i j
  have hA2 : Abundance.normalized_subcommunity_abundance counts =
      canonical_buffer counts .normalized :=
    funext fun i => funext fun j =>
      norm_abund_of_col_ne_zero counts hne j (ne_of_gt (hcol j)) i
  have hA3 : Abundance.subcommunity_normalizing_constants counts =
      (fun j => some (column_total counts j / total_count counts)) :=
    funext fun j => norm_const_of_total_ne_zero counts hne j
  have hA4 : Abundance.metacommunity_abundance counts = plain_meta counts :=
    funext fun i => meta_abund_of_total_ne_zero counts hne i
  refine ⟨?_, ?_, ?_, ?_⟩
  · rw [hA1, (sharedInv_sub counts htot hcol s hinv).1]
  · rw [hA2, (sharedInv_norm counts htot hcol s hinv).1]
  · rw [hA3]
    exact hinv.2.1
  · intro v s2 h
    rw [hA4, (sharedInv_meta counts htot hcol s hinv v s2 h).1]

/-- 1 × 2 counts matrix with positive grand total but zero second-column
total. -/
def shared_ce_zero_col : Matrix (Fin 1) (Fin 2) ℚ := fun _ j => if j = 0 then 1 else 0

/-- 1 × 2 counts matrix with positive grand total and positive column
totals. -/
def shared_ce_pos : Matrix (Fin 1) (Fin 2) ℚ := fun _ _ => 1

/-- C3 counterexample to the claim as stated (positive grand total alone
is not enough): (a) with a zero-total second column, accessing
`normalized_subcommunity_abundance` and then `subcommunity_abundance`
leaves a non-finite entry in the shared buffer where plain `Abundance`
returns the finite value 0; (b) even with positive column totals,
accessing `normalized_subcommunity_abundance` and then
`metacommunity_abundance` errors (in-place multiply of the
`(n_species, 1)` metacommunity buffer by the length-2 constants vector
is not broadcastable), while plain `Abundance` succeeds. -/
theorem C3_counterexample :
    0 < total_count shared_ce_zero_col ∧
    ((SharedAbundance.init
        shared_ce_zero_col).normalized_subcommunity_abundance.2).subcommunity_abundance.1
      0 1 = none ∧
    Abundance.subcommunity_abundance shared_ce_zero_col 0 1 = some 0 ∧
    0 < total_count shared_ce_pos ∧
    0 < column_total shared_ce_pos 0 ∧
    0 < column_total shared_ce_pos 1 ∧
    ((SharedAbundance.init
        shared_ce_pos).normalized_subcommunity_abundance.2).metacommunity_abundance =
      .error () := by
  have h1 : total_count shared_ce_zero_col = 1 := by
    norm_num [total_count, shared_ce_zero_col, Fin.sum_univ_one, Fin.sum_univ_two]
  refine ⟨by rw [h1]; norm_num, ?_, ?_, ?_, ?_, ?_, ?_⟩
  · simp +decide [SharedAbundance.init, SharedAbundance.subcommunity_abundance,
      SharedAbundance.normalized_subcommunity_abundance, ndiv, nmul,
      shared_ce_zero_col, total_count, column_total, Fin.sum_univ_one,
      Fin.sum_univ_two]
  · rw [sub_abund_of_total_ne_zero shared_ce_zero_col (by rw [h1]; norm_num)]
    simp +decide [shared_ce_zero_col]
  · norm_num [total_count, shared_ce_pos, Fin.sum_univ_one, Fin.sum_univ_two]
  · norm_num [column_total, shared_ce_pos, Fin.sum_univ_one]
  · norm_num [column_total, shared_ce_pos, Fin.sum_univ_one]
  · rfl

theorem C3_shared_abundance_refinement_witness :
    (SharedAbundance.init witness_counts).subcommunity_abundance.1 =
      Abundance.subcommunity_abundance witness_counts ∧
    (SharedAbundance.init witness_counts).normalized_subcommunity_abundance.1 =
      Abundance.normalized_subcommunity_abundance witness_counts ∧
    (SharedAbundance.init witness_counts).subcommunity_normalizing_constants =
      Abundance.subcommunity_normalizing_constants witness_counts := by
  have htot : 0 < total_count witness_counts := by
    norm_num [total_count, witness_counts, Fin.sum_univ_two]
  have hcols : ∀ j, 0 < column_total witness_counts j := by
    intro j
    fin_cases j <;> norm_num [column_total, witness_counts, Fin.sum_univ_two]
  have h := C3_shared_abundance_refinement witness_counts htot hcols []
    (SharedAbundance.init witness_counts) rfl
  exact ⟨h.1, h.2.1, h.2.2.1⟩

/-- C9: rescale transitions are idempotent.  If the shared buffer already
stores subcommunity abundances, `subcommunity_abundance` performs no
mutation (neither rescale branch fires) and returns the stored buffer;
likewise for `normalized_subcommunity_abundance` when normalized
abundances are stored.  Consequently a second request returns exactly the
value and state of the first request, for any starting state. -/
theorem C9_rescale_idempotent {m n : ℕ} (s : SharedAbundance m n) :
    (s.stores = .subcommunity → s.subcommunity_abundance = (s.buffer, s)) ∧
    (s.stores = .normalized → s.normalized_subcommunity_abundance = (s.buffer, s)) ∧
    (s.subcommunity_abundance.2).subcommunity_abundance =
      (s.subcommunity_abundance.1, s.subcommunity_abundance.2) ∧
    (s.normalized_subcommunity_abundance.2).normalized_subcommunity_abundance =
      (s.normalized_subcommunity_abundance.1, s.normalized_subcommunity_abundance.2) := by
  refine ⟨?_, ?_, ?_, ?_⟩
  · intro h
    cases s with
    | mk buffer stores metaCache total nc => cases h; rfl
  · intro h
    cases s with
    | mk buffer stores metaCache total nc => cases h; rfl
  · rfl
  · rfl

theorem C9_rescale_idempotent_witness :
    ((SharedAbundance.init witness_counts).subcommunity_abundance.2).subcommunity_abundance =
      (((SharedAbundance.init witness_counts).subcommunity_abundance.2).buffer,
        (SharedAbundance.init witness_counts).subcommunity_abundance.2) ∧
    ((SharedAbundance.init
        witness_counts).normalized_subcommunity_abundance.2).normalized_subcommunity_abundance =
      (((SharedAbundance.init witness_counts).normalized_subcommunity_abundance.2).buffer,
        (SharedAbundance.init witness_counts).normalized_subcommunity_abundance.2) :=
  ⟨(C9_rescale_idempotent
      ((SharedAbundance.init witness_counts).subcommunity_abundance.2)).1 rfl,
    (C9_rescale_idempotent
      ((SharedAbundance.init witness_counts).normalized_subcommunity_abundance.2)).2.1 rfl⟩

/-! ## Similarity backends (src/src/diversity/similarity.py)

The similarity matrix `S` is species × species, the relative-abundance
matrix `A` is species × community; every backend computes `S @ A`.  The
file backend is modelled on the parsed numeric content of the file: `S`
is the matrix stored in the file (header excluded), and pandas
`chunksize=c` iteration yields the row blocks `S[i:i+c]` for
`i = 0, c, 2c, ...`. -/

/-- The chunk start offsets `range(0, n, c)` (for `c > 0`, written in the
closed form with `ceil(n/c)` chunks, which is how many chunks pandas and
`SimilarityFromFunction` produce). -/
def chunk_starts (n c : ℕ) : List ℕ :=
  (List.range ((n + c - 1) / c)).map (fun q => q * c)

/-- `SimilarityFromArray.weighted_similarities` (also
`SimilarityFromDataFrame.weighted_similarities`): a single matrix multiply
`self.similarity @ relative_abundances`. -/
def SimilarityFromArray.weighted_similarities {n k : ℕ}
    (S : Matrix (Fin n) (Fin n) ℚ) (A : Matrix (Fin n) (Fin k) ℚ) :
    Matrix (Fin n) (Fin k) ℚ :=
  fun i j => ∑ x, S i x * A x j

/-- `SimilarityFromFile.weighted_similarities`: allocates an output of the
shape of `relative_abundances` (modelled zero-initialized; `numpy.empty`
leaves it uninitialized, and every row is overwritten exactly once), then
for each chunk of `chunk_size` rows of the file writes
`chunk.to_numpy() @ relative_abundances` into rows `i : i + chunk_size`
(the final shorter chunk writes the clipped row range). -/
def SimilarityFromFile.weighted_similarities {n k : ℕ}
    (S : Matrix (Fin n) (Fin n) ℚ) (A : Matrix (Fin n) (Fin k) ℚ)
    (chunk_size : ℕ) : Matrix (Fin n) (Fin k) ℚ :=
  (chunk_starts n chunk_size).foldl
    (fun ws i => fun r j =>
      if i ≤ (r : ℕ) ∧ (r : ℕ) < i + chunk_size then ∑ x, S r x * A x j else ws r j)
    (fun _ _ => 0)

/-- The pairwise similarity matrix induced by a similarity function and a
feature matrix `X` (one row per species): `S[i,j] = f(X[i], X[j])`. -/
def similarity_matrix_of {n d : ℕ} (f : (Fin d → ℚ) → (Fin d → ℚ) → ℚ)
    (X : Matrix (Fin n) (Fin d) ℚ) : Matrix (Fin n) (Fin n) ℚ :=
  fun i j => f (X i) (X j)

/-- `weighted_similarity_chunk`: one worker task.  It takes the rows
`X[i : i + chunk_size]`, fills a dense `chunk × n` block with
`similarity(row_r, row_x)` and multiplies it by `relative_abundances`;
the block multiply is recorded row-wise: row `r` of the partial result at
column `j` is `sum_x f(X[r], X[x]) * A[x, j]`. -/
def weighted_similarity_chunk {n d k : ℕ} (f : (Fin d → ℚ) → (Fin d → ℚ) → ℚ)
    (X : Matrix (Fin n) (Fin d) ℚ) (A : Matrix (Fin n) (Fin k) ℚ)
    (chunk_size i : ℕ) : List (Fin k → ℚ) :=
  (((List.finRange n).drop i).take chunk_size).map
    (fun r => fun j => ∑ x, similarity_matrix_of f X r x * A x j)

/-- `SimilarityFromFunction.weighted_similarities`: submits one
`weighted_similarity_chunk` task per offset in `range(0, n, chunk_size)`
and concatenates the collected partial results in submission order; the
result is the list of rows of the full species × k output. -/
def SimilarityFromFunction.weighted_similarities {n d k : ℕ}
    (f : (Fin d → ℚ) → (Fin d → ℚ) → ℚ) (X : Matrix (Fin n) (Fin d) ℚ)
    (A : Matrix (Fin n) (Fin k) ℚ) (chunk_size : ℕ) : List (Fin k → ℚ) :=
  ((chunk_starts n chunk_size).map
    (fun i => weighted_similarity_chunk f X A chunk_size i)).flatten

theorem le_ceil_div_mul (n c : ℕ) (hc : 0 < c) : n ≤ ((n + c - 1) / c) * c := by
  have h1 := Nat.div_add_mod (n + c - 1) c
  have h2 : (n + c - 1) % c < c := Nat.mod_lt _ hc
  rw [Nat.mul_comm]
  omega

theorem div_mul_mem_chunk_starts {n c : ℕ} (hc : 0 < c) (r : ℕ) (hr : r < n) :
    (r / c) * c ∈ chunk_starts n c := by
  unfold chunk_starts
  rw [List.mem_map]
  refine ⟨r / c, List.mem_range.mpr ?_, rfl⟩
  have h1 : r / c ≤ (n - 1) / c := Nat.div_le_div_right (by omega)
  have h2 : (n - 1 + c) / c = (n - 1) / c + 1 := Nat.add_div_right _ hc
  have h3 : n + c - 1 = n - 1 + c := by omega
  rw [h3, h2]
  omega

theorem chunk_start_covers {c : ℕ} (hc : 0 < c) (r : ℕ) :
    (r / c) * c ≤ r ∧ r < (r / c) * c + c := by
  have h1 := Nat.div_add_mod r c
  have h2 : r % c < c := Nat.mod_lt _ hc
  rw [Nat.mul_comm]
  omega

theorem file_foldl_eval {n k : ℕ} (S : Matrix (Fin n) (Fin n) ℚ)
    (A : Matrix (Fin n) (Fin k) ℚ) (c : ℕ) (L : List ℕ)
    (init : Matrix (Fin n) (Fin k) ℚ) (r : Fin n) (j : Fin k) :
    (L.foldl
      (fun ws i => fun (r : Fin n) (j : Fin k) =>
        if i ≤ (r : ℕ) ∧ (r : ℕ) < i + c then ∑ x, S r x * A x j else ws r j)
      init) r j =
    if ∃ i ∈ L, i ≤ (r : ℕ) ∧ (r : ℕ) < i + c then ∑ x, S r x * A x j
    else init r j := by
  induction L generalizing init with
  | nil => simp
  | cons a L ih =>
    rw [List.foldl_cons, ih]
    by_cases hmem : ∃ i ∈ L, i ≤ (r : ℕ) ∧ (r : ℕ) < i + c
    · rw [if_pos hmem, if_pos ?_]
      obtain ⟨i, hi, hcov⟩ := hmem
      exact ⟨i, List.mem_cons_of_mem a hi, hcov⟩
    · rw [if_neg hmem]
      by_cases ha : a ≤ (r : ℕ) ∧ (r : ℕ) < a + c
      · rw [if_pos ha, if_pos ⟨a, List.mem_cons_self a L, ha⟩]
      · rw [if_neg ha, if_neg ?_]
        rintro ⟨i, hi, hcov⟩
        rcases List.mem_cons.mp hi with h | h
        · exact ha (h ▸ hcov)
        · exact hmem ⟨i, h, hcov⟩

/-- C4: for every similarity matrix, every relative-abundance matrix of
matching species order and every positive chunk size (dividing the
species count evenly or not), the chunked-file backend computes exactly
the same species × k result as the in-memory array backend, namely
`S @ A` (exact rational arithmetic, hence within any floating
tolerance). -/
theorem C4_file_backend_matches_array_backend {n k : ℕ}
    (S : Matrix (Fin n) (Fin n) ℚ) (A : Matrix (Fin n) (Fin k) ℚ)
    (chunk_size : ℕ) (hc : 0 < chunk_size) :
    SimilarityFromFile.weighted_similarities S A chunk_size =
      SimilarityFromArray.weighted_similarities S A := by
  funext r j
  have hcov : ∃ i ∈ chunk_starts n chunk_size,
      i ≤ (r : ℕ) ∧ (r : ℕ) < i + chunk_size := by
    obtain ⟨h1, h2⟩ := chunk_start_covers hc (r : ℕ)
    exact ⟨((r : ℕ) / chunk_size) * chunk_size,
      div_mul_mem_chunk_starts hc (r : ℕ) r.isLt, h1, h2⟩
  have h := file_foldl_eval S A chunk_size (chunk_starts n chunk_size)
    (fun _ _ => 0) r j
  rw [if_pos hcov] at h
  exact h

/-- Concrete 3 × 3 similarity matrix for witness evaluation. -/
def witness_S : Matrix (Fin 3) (Fin 3) ℚ := fun i j => if i = j then 1 else 1 / 2

/-- Concrete 3 × 2 relative-abundance matrix for witness evaluation. -/
def witness_A : Matrix (Fin 3) (Fin 2) ℚ := fun i j => if i = (0 : Fin 3) then 0 else (j : ℚ)

theorem C4_file_backend_matches_array_backend_witness :
    0 < 2 ∧
    SimilarityFromFile.weighted_similarities witness_S witness_A 2 =
      SimilarityFromArray.weighted_similarities witness_S witness_A :=
  ⟨by decide,
    C4_file_backend_matches_array_backend witness_S witness_A 2 (by decide)⟩

theorem chunks_flatten {α : Type} (c : ℕ) :
    ∀ (K : ℕ) (l : List α), l.length ≤ K * c →
      ((List.range K).map (fun q => (l.drop (q * c)).take c)).flatten = l := by
  intro K
  induction K with
  | zero =>
    intro l hl
    have : l = [] := List.eq_nil_of_length_eq_zero (by omega)
    simp [this]
  | succ K ih =>
    intro l hl
    rw [List.range_succ_eq_map, List.map_cons, List.map_map, List.flatten_cons]
    have hmap : (List.range K).map ((fun q => (l.drop (q * c)).take c) ∘ Nat.succ) =
        (List.range K).map (fun q => ((l.drop c).drop (q * c)).take c) := by
      apply List.map_congr_left
      intro q _
      have : (l.drop c).drop (q * c) = l.drop (Nat.succ q * c) := by
        rw [List.drop_drop, Nat.succ_mul, Nat.add_comm]
      simp [Function.comp, this]
    rw [hmap, ih (l.drop c) (by simp [List.length_drop, Nat.succ_mul] at hl ⊢; omega)]
    simp [Nat.zero_mul]

/-- C5: for every pairwise similarity function, feature matrix, abundance
matrix and positive chunk size, the concatenation (in submission order)
of the per-chunk partial products reconstructs exactly the rows of
`S @ A`, where `S[i,j] = f(X[i], X[j])`; the right-hand side is the
in-memory product of the induced similarity matrix with the abundance
matrix. -/
theorem C5_function_backend_computes_matrix_product {n d k : ℕ}
    (f : (Fin d → ℚ) → (Fin d → ℚ) → ℚ) (X : Matrix (Fin n) (Fin d) ℚ)
    (A : Matrix (Fin n) (Fin k) ℚ) (chunk_size : ℕ) (hc : 0 < chunk_size) :
    SimilarityFromFunction.weighted_similarities f X A chunk_size =
      (List.finRange n).map
        (fun r => SimilarityFromArray.weighted_similarities
          (similarity_matrix_of f X) A r) := by
  unfold SimilarityFromFunction.weighted_similarities weighted_similarity_chunk
  unfold chunk_starts
  rw [List.map_map]
  have hmap : ((List.range ((n + chunk_size - 1) / chunk_size)).map
      ((fun i => (((List.finRange n).drop i).take chunk_size).map
        (fun r => fun j => ∑ x, similarity_matrix_of f X r x * A x j)) ∘
        (fun q => q * chunk_size))) =
      (List.range ((n + chunk_size - 1) / chunk_size)).map
        (fun q => ((((List.finRange n).map
          (fun r => SimilarityFromArray.weighted_similarities
            (similarity_matrix_of f X) A r)).drop (q * chunk_size)).take
              chunk_size)) := by
    apply List.map_congr_left
    intro q _
    simp only [Function.comp]
    rw [← List.map_drop, ← List.map_take]
    rfl
  rw [hmap]
  apply chunks_flatten
  rw [List.length_map, List.length_finRange]
  exact le_ceil_div_mul n chunk_size hc

/-- Concrete similarity function for witness evaluation. -/
def witness_f : (Fin 1 → ℚ) → (Fin 1 → ℚ) → ℚ := fun x y => if x 0 = y 0 then 1 else 1 / 2

/-- Concrete 3 × 1 feature matrix for witness evaluation. -/
def witness_X : Matrix (Fin 3) (Fin 1) ℚ := fun i _ => (i : ℕ)

theorem C5_function_backend_computes_matrix_product_witness :
    0 < 2 ∧
    SimilarityFromFunction.weighted_similarities witness_f witness_X witness_A 2 =
      (List.finRange 3).map
        (fun r => SimilarityFromArray.weighted_similarities
          (similarity_matrix_of witness_f witness_X) witness_A r) :=
  ⟨by decide,
    C5_function_backend_computes_matrix_product witness_f witness_X witness_A 2
      (by decide)⟩

/-! ## make_similarity (src/src/diversity/similarity.py) -/

/-- The possible runtime types of the `similarity` argument of
`make_similarity`: `None`, a pandas DataFrame, a numpy ndarray, a numpy
memmap, a path string, a plain function, or any other (unsupported)
type, recorded by its type name. -/
inductive SimilarityArgument (n d : ℕ) where
  | noneArg
  | dataframe (df : Matrix (Fin n) (Fin n) ℚ)
  | array (a : Matrix (Fin n) (Fin n) ℚ)
  | memmap (a : Matrix (Fin n) (Fin n) ℚ)
  | filepath (path : String)
  | function (f : (Fin d → ℚ) → (Fin d → ℚ) → ℚ)
  | unsupported (typeName : String)

/-- The concrete `Similarity` subclasses constructed by
`make_similarity`, with the constructor arguments the code passes. -/
inductive SimilarityBackend (n d : ℕ) where
  | fromDataFrame (df : Matrix (Fin n) (Fin n) ℚ)
  | fromArray (a : Matrix (Fin n) (Fin n) ℚ)
  | fromFile (path : String) (chunk_size : ℕ)
  | fromFunction (f : (Fin d → ℚ) → (Fin d → ℚ) → ℚ)
      (X : Matrix (Fin n) (Fin d) ℚ) (chunk_size : ℕ)

/-- The `NotImplementedError` message raised for an unsupported
`similarity` argument type (the f-string interpolates the type). -/
def make_similarity_error (typeName : String) : String :=
  "Type " ++ typeName ++ " is not supported for argument similarity." ++
    "Valid types include pandas.DataFram, numpy.ndarray, numpy.memmap," ++
    " str, or typing.Callable"

/-- `make_similarity`: dispatch on the runtime type of `similarity`.
`None` is returned unchanged (no backend, no error); DataFrame, ndarray
or memmap, str and function arguments construct the corresponding
backend; any other type raises `NotImplementedError` naming the type. -/
def make_similarity {n d : ℕ} (similarity : SimilarityArgument n d)
    (X : Matrix (Fin n) (Fin d) ℚ) (chunk_size : ℕ) :
    Except String (Option (SimilarityBackend n d)) :=
  match similarity with
  | .noneArg => .ok none
  | .dataframe df => .ok (some (.fromDataFrame df))
  | .array a => .ok (some (.fromArray a))
  | .memmap a => .ok (some (.fromArray a))
  | .filepath path => .ok (some (.fromFile path chunk_size))
  | .function f => .ok (some (.fromFunction f X chunk_size))
  | .unsupported typeName => .error (make_similarity_error typeName)

/-- C10: `make_similarity` called with `similarity = None` returns `None`
(no backend is constructed and no error is raised), while an argument of
any unsupported type raises an error whose message names that type; the
supported argument types all construct a backend. -/
theorem C10_make_similarity_none {n d : ℕ} (X : Matrix (Fin n) (Fin d) ℚ)
    (chunk_size : ℕ) :
    make_similarity SimilarityArgument.noneArg X chunk_size = .ok none ∧
    (∀ typeName, make_similarity (SimilarityArgument.unsupported typeName) X chunk_size =
      .error (make_similarity_error typeName)) ∧
    (∀ typeName, make_similarity_error typeName =
      "Type " ++ typeName ++ " is not supported for argument similarity." ++
        "Valid types include pandas.DataFram, numpy.ndarray, numpy.memmap," ++
        " str, or typing.Callable") ∧
    (∀ df, make_similarity (SimilarityArgument.dataframe df) X chunk_size =
      .ok (some (.fromDataFrame df))) ∧
    (∀ a, make_similarity (SimilarityArgument.array a) X chunk_size =
      .ok (some (.fromArray a))) ∧
    (∀ a, make_similarity (SimilarityArgument.memmap a) X chunk_size =
      .ok (some (.fromArray a))) ∧
    (∀ p, make_similarity (SimilarityArgument.filepath p) X chunk_size =
      .ok (some (.fromFile p chunk_size))) ∧
    (∀ f, make_similarity (SimilarityArgument.function f) X chunk_size =
      .ok (some (.fromFunction f X chunk_size))) := by
  exact ⟨rfl, fun _ => rfl, fun _ => rfl, fun _ => rfl, fun _ => rfl, fun _ => rfl,
    fun _ => rfl, fun _ => rfl⟩

/-! ## Power mean and Metacommunity measures
(src/src/diversity/metacommunity.py, class `Metacommunity`)

The measure pipeline is embedded over `ℝ` (ideal real semantics of the
float code).  The claims proved over it stay in the nondegenerate regime
(positive totals), so plain real division suffices here; numpy
non-finite semantics are covered by the `Option ℚ` layer above. -/

/-- Modelled from the spec: `power_mean` is defined in
`diversity/utilities.py`, which is not part of src/.  Per spec section
4.1: at `order = 0` it is the weighted geometric mean
`exp(sum w_i * ln v_i)` where zero-weight entries contribute nothing to
the sum regardless of their value; at finite nonzero order it is
`(sum w_i * v_i ^ order) ^ (1/order)` where zero values contribute `0` to
the sum (the `order > 0` masking rule; for `order < 0` a zero value of
positive weight is a domain error in the code, a case not exercised by
any theorem below). -/
noncomputable def power_mean {ι : Type} [Fintype ι] (order : ℝ) (w v : ι → ℝ) : ℝ :=
  if order = 0 then Real.exp (∑ i, if w i = 0 then 0 else w i * Real.log (v i))
  else (∑ i, if v i = 0 then 0 else w i * v i ^ order) ^ (1 / order)

/-- Modelled from the spec: the dominance limit of the power mean used at
viewpoint ∞ (spec section 4.1): the maximum of the values with positive
weight (junk value 0 when no weight is positive, a case not exercised). -/
noncomputable def power_mean_dominance {ι : Type} [Fintype ι] (w v : ι → ℝ) : ℝ :=
  if h : (Finset.univ.filter (fun i => 0 < w i)).Nonempty then
    (Finset.univ.filter (fun i => 0 < w i)).sup' h v
  else 0

/-- A viewpoint is a non-negative real or ∞. -/
inductive Viewpoint where
  | ofReal (x : ℝ)
  | infinity

/-- The power mean a diversity measure applies at a viewpoint: exponent
`1 - viewpoint` at finite viewpoints, the dominance limit at ∞. -/
noncomputable def power_mean_viewpoint {ι : Type} [Fintype ι] :
    Viewpoint → (ι → ℝ) → (ι → ℝ) → ℝ
  | .ofReal x, w, v => power_mean (1 - x) w v
  | .infinity, w, v => power_mean_dominance w v

/-- A `Metacommunity` object: a similarity backend whose parsed matrix is
`Z` (every backend computes `Z @ A`, see the C4/C5 theorems) together
with an `Abundance` on the counts matrix. -/
structure MetacommunityModel (s c : ℕ) where
  Z : Matrix (Fin s) (Fin s) ℝ
  counts : Matrix (Fin s) (Fin c) ℝ

/-- `counts.sum()` over `ℝ`. -/
noncomputable def MetacommunityModel.total_abundance {s c : ℕ}
    (M : MetacommunityModel s c) : ℝ :=
  ∑ i, ∑ j, M.counts i j

/-- `Abundance.subcommunity_abundance` over `ℝ`. -/
noncomputable def MetacommunityModel.subcommunity_abundance {s c : ℕ}
    (M : MetacommunityModel s c) : Matrix (Fin s) (Fin c) ℝ :=
  fun i j => M.counts i j / M.total_abundance

/-- `Abundance.metacommunity_abundance` over `ℝ` (row sums). -/
noncomputable def MetacommunityModel.metacommunity_abundance {s c : ℕ}
    (M : MetacommunityModel s c) : Fin s → ℝ :=
  fun i => ∑ j, M.subcommunity_abundance i j

/-- `Abundance.subcommunity_normalizing_constants` over `ℝ` (column
sums). -/
noncomputable def MetacommunityModel.subcommunity_normalizing_constants {s c : ℕ}
    (M : MetacommunityModel s c) : Fin c → ℝ :=
  fun j => ∑ i, M.subcommunity_abundance i j

/-- `Abundance.normalized_subcommunity_abundance` over `ℝ`. -/
noncomputable def MetacommunityModel.normalized_subcommunity_abundance {s c : ℕ}
    (M : MetacommunityModel s c) : Matrix (Fin s) (Fin c) ℝ :=
  fun i j => M.subcommunity_abundance i j / M.subcommunity_normalizing_constants j

/-- `Metacommunity.metacommunity_similarity`:
`Z @ metacommunity_abundance` (shape species × 1, kept as a vector). -/
noncomputable def MetacommunityModel.metacommunity_similarity {s c : ℕ}
    (M : MetacommunityModel s c) : Fin s → ℝ :=
  fun i => ∑ x, M.Z i x * M.metacommunity_abundance x

/-- `Metacommunity.subcommunity_similarity`:
`Z @ subcommunity_abundance`. -/
noncomputable def MetacommunityModel.subcommunity_similarity {s c : ℕ}
    (M : MetacommunityModel s c) : Matrix (Fin s) (Fin c) ℝ :=
  fun i j => ∑ x, M.Z i x * M.subcommunity_abundance x j

/-- `Metacommunity.normalized_subcommunity_similarity`:
`Z @ normalized_subcommunity_abundance`. -/
noncomputable def MetacommunityModel.normalized_subcommunity_similarity {s c : ℕ}
    (M : MetacommunityModel s c) : Matrix (Fin s) (Fin c) ℝ :=
  fun i j => ∑ x, M.Z i x * M.normalized_subcommunity_abundance x j

/-- `numpy.divide(numerator, denominator, out=zeros(shape),
where=denominator != 0)`: entries with zero denominator are left at the
zero fill of `out`; every other entry is the ordinary quotient.  Total:
never NaN, never an exception. -/
noncomputable def safe_divide {s c : ℕ} (num den : Matrix (Fin s) (Fin c) ℝ) :
    Matrix (Fin s) (Fin c) ℝ :=
  fun i j => if den i j = 0 then 0 else num i j / den i j

/-- `Metacommunity.__subcommunity_measure`: the zero-safe ratio of the
numerator and denominator arrays, combined per subcommunity by the power
mean with weights `normalized_subcommunity_abundance` and exponent
`1 - viewpoint`. -/
noncomputable def MetacommunityModel.subcommunity_measure {s c : ℕ}
    (M : MetacommunityModel s c) (v : Viewpoint)
    (num den : Matrix (Fin s) (Fin c) ℝ) : Fin c → ℝ :=
  fun j => power_mean_viewpoint v
    (fun i => M.normalized_subcommunity_abundance i j)
    (fun i => safe_divide num den i j)

/-- `Metacommunity.subcommunity_alpha`: numerator 1, denominator the
subcommunity weighted similarities. -/
noncomputable def MetacommunityModel.subcommunity_alpha {s c : ℕ}
    (M : MetacommunityModel s c) (v : Viewpoint) : Fin c → ℝ :=
  M.subcommunity_measure v (fun _ _ => 1) M.subcommunity_similarity

/-- `Metacommunity.subcommunity_rho`: numerator the metacommunity
weighted similarities (a species × 1 column, broadcast across
subcommunities), denominator the subcommunity weighted similarities. -/
noncomputable def MetacommunityModel.subcommunity_rho {s c : ℕ}
    (M : MetacommunityModel s c) (v : Viewpoint) : Fin c → ℝ :=
  M.subcommunity_measure v (fun i _ => M.metacommunity_similarity i)
    M.subcommunity_similarity

/-- `Metacommunity.subcommunity_beta`: `1 / subcommunity_rho`. -/
noncomputable def MetacommunityModel.subcommunity_beta {s c : ℕ}
    (M : MetacommunityModel s c) (v : Viewpoint) : Fin c → ℝ :=
  fun j => 1 / M.subcommunity_rho v j

/-- `Metacommunity.subcommunity_gamma`: numerator 1, denominator the
metacommunity weighted similarities broadcast to the subcommunity
shape. -/
noncomputable def MetacommunityModel.subcommunity_gamma {s c : ℕ}
    (M : MetacommunityModel s c) (v : Viewpoint) : Fin c → ℝ :=
  M.subcommunity_measure v (fun _ _ => 1) (fun i _ => M.metacommunity_similarity i)

/-- `Metacommunity.normalized_subcommunity_alpha`. -/
noncomputable def MetacommunityModel.normalized_subcommunity_alpha {s c : ℕ}
    (M : MetacommunityModel s c) (v : Viewpoint) : Fin c → ℝ :=
  M.subcommunity_measure v (fun _ _ => 1) M.normalized_subcommunity_similarity

/-- `Metacommunity.normalized_subcommunity_rho`. -/
noncomputable def MetacommunityModel.normalized_subcommunity_rho {s c : ℕ}
    (M : MetacommunityModel s c) (v : Viewpoint) : Fin c → ℝ :=
  M.subcommunity_measure v (fun i _ => M.metacommunity_similarity i)
    M.normalized_subcommunity_similarity

/-- `Metacommunity.normalized_subcommunity_beta`:
`1 / normalized_subcommunity_rho`. -/
noncomputable def MetacommunityModel.normalized_subcommunity_beta {s c : ℕ}
    (M : MetacommunityModel s c) (v : Viewpoint) : Fin c → ℝ :=
  fun j => 1 / M.normalized_subcommunity_rho v j

/-- `Metacommunity.__metacommunity_measure`: the power mean of a
subcommunity measure across subcommunities, weighted by the subcommunity
normalizing constants, exponent `1 - viewpoint`. -/
noncomputable def MetacommunityModel.metacommunity_measure {s c : ℕ}
    (M : MetacommunityModel s c) (v : Viewpoint)
    (subcommunity_function : Viewpoint → Fin c → ℝ) : ℝ :=
  power_mean_viewpoint v M.subcommunity_normalizing_constants
    (subcommunity_function v)

/-- `Metacommunity.metacommunity_alpha`. -/
noncomputable def MetacommunityModel.metacommunity_alpha {s c : ℕ}
    (M : MetacommunityModel s c) (v : Viewpoint) : ℝ :=
  M.metacommunity_measure v M.subcommunity_alpha

/-- `Metacommunity.metacommunity_rho`. -/
noncomputable def MetacommunityModel.metacommunity_rho {s c : ℕ}
    (M : MetacommunityModel s c) (v : Viewpoint) : ℝ :=
  M.metacommunity_measure v M.subcommunity_rho

/-- `Metacommunity.metacommunity_beta`. -/
noncomputable def MetacommunityModel.metacommunity_beta {s c : ℕ}
    (M : MetacommunityModel s c) (v : Viewpoint) : ℝ :=
  M.metacommunity_measure v M.subcommunity_beta

/-- `Metacommunity.metacommunity_gamma`. -/
noncomputable def MetacommunityModel.metacommunity_gamma {s c : ℕ}
    (M : MetacommunityModel s c) (v : Viewpoint) : ℝ :=
  M.metacommunity_measure v M.subcommunity_gamma

/-- `Metacommunity.normalized_metacommunity_alpha`. -/
noncomputable def MetacommunityModel.normalized_metacommunity_alpha {s c : ℕ}
    (M : MetacommunityModel s c) (v : Viewpoint) : ℝ :=
  M.metacommunity_measure v M.normalized_subcommunity_alpha

/-- `Metacommunity.normalized_metacommunity_rho`. -/
noncomputable def MetacommunityModel.normalized_metacommunity_rho {s c : ℕ}
    (M : MetacommunityModel s c) (v : Viewpoint) : ℝ :=
  M.metacommunity_measure v M.normalized_subcommunity_rho

/-- `Metacommunity.normalized_metacommunity_beta`. -/
noncomputable def MetacommunityModel.normalized_metacommunity_beta {s c : ℕ}
    (M : MetacommunityModel s c) (v : Viewpoint) : ℝ :=
  M.metacommunity_measure v M.normalized_subcommunity_beta

/-- C2: for every metacommunity, every viewpoint (finite or ∞) and every
numerator/denominator pair, the ratio entries with zero denominator are
set to `0` (the `safe_divide` function is total, so no NaN and no error),
and every ratio-based subcommunity measure combines the ratio array by
the power mean with weights `normalized_subcommunity_abundance`; at a
finite viewpoint that power mean uses exponent `1 - viewpoint` (at ∞ it
is the dominance limit).  Every metacommunity-level measure applies the
power mean with weights `subcommunity_normalizing_constants` and the same
exponent to the corresponding subcommunity measure. -/
theorem C2_measure_pipeline {s c : ℕ} (M : MetacommunityModel s c) (v : Viewpoint) :
    (∀ (num den : Matrix (Fin s) (Fin c) ℝ) i j,
      den i j = 0 → safe_divide num den i j = 0) ∧
    (∀ (num den : Matrix (Fin s) (Fin c) ℝ) j,
      M.subcommunity_measure v num den j =
        power_mean_viewpoint v
          (fun i => M.normalized_subcommunity_abundance i j)
          (fun i => safe_divide num den i j)) ∧
    (∀ (x : ℝ) (w vals : Fin s → ℝ),
      power_mean_viewpoint (Viewpoint.ofReal x) w vals = power_mean (1 - x) w vals) ∧
    M.subcommunity_alpha v =
      M.subcommunity_measure v (fun _ _ => 1) M.subcommunity_similarity ∧
    M.subcommunity_rho v =
      M.subcommunity_measure v (fun i _ => M.metacommunity_similarity i)
        M.subcommunity_similarity ∧
    M.subcommunity_gamma v =
      M.subcommunity_measure v (fun _ _ => 1)
        (fun i _ => M.metacommunity_similarity i) ∧
    M.normalized_subcommunity_alpha v =
      M.subcommunity_measure v (fun _ _ => 1) M.normalized_subcommunity_similarity ∧
    M.normalized_subcommunity_rho v =
      M.subcommunity_measure v (fun i _ => M.metacommunity_similarity i)
        M.normalized_subcommunity_similarity ∧
    M.metacommunity_alpha v =
      power_mean_viewpoint v M.subcommunity_normalizing_constants
        (M.subcommunity_alpha v) ∧
    M.metacommunity_rho v =
      power_mean_viewpoint v M.subcommunity_normalizing_constants
        (M.subcommunity_rho v) ∧
    M.metacommunity_beta v =
      power_mean_viewpoint v M.subcommunity_normalizing_constants
        (M.subcommunity_beta v) ∧
    M.metacommunity_gamma v =
      power_mean_viewpoint v M.subcommunity_normalizing_constants
        (M.subcommunity_gamma v) ∧
    M.normalized_metacommunity_alpha v =
      power_mean_viewpoint v M.subcommunity_normalizing_constants
        (M.normalized_subcommunity_alpha v) ∧
    M.normalized_metacommunity_rho v =
      power_mean_viewpoint v M.subcommunity_normalizing_constants
        (M.normalized_subcommunity_rho v) ∧
    M.normalized_metacommunity_beta v =
      power_mean_viewpoint v M.subcommunity_normalizing_constants
        (M.normalized_subcommunity_beta v) := by
  refine ⟨?_, fun _ _ _ => rfl, fun _ _ _ => rfl, rfl, rfl, rfl, rfl, rfl, rfl, rfl,
    rfl, rfl, rfl, rfl, rfl⟩
  intro num den i j h
  simp [safe_divide, h]

/-- C6: wherever subcommunity rho is strictly positive, subcommunity beta
is its entrywise reciprocal, and likewise for the normalized pair (the
code literally returns `1 / rho(viewpoint)`). -/
theorem C6_beta_is_reciprocal_rho {s c : ℕ} (M : MetacommunityModel s c)
    (v : Viewpoint) (j : Fin c) (_h1 : 0 < M.subcommunity_rho v j)
    (_h2 : 0 < M.normalized_subcommunity_rho v j) :
    M.subcommunity_beta v j = 1 / M.subcommunity_rho v j ∧
    M.normalized_subcommunity_beta v j = 1 / M.normalized_subcommunity_rho v j :=
  ⟨rfl, rfl⟩

/-! ## End-to-end test data (src/tests/main_test.py) -/

theorem vec2_zero {α : Type} (a b : α) : (![a, b] : Fin 2 → α) 0 = a := rfl

theorem vec2_one {α : Type} (a b : α) : (![a, b] : Fin 2 → α) 1 = b := rfl

theorem vec6_zero {α : Type} (a b c d e f : α) : (![a, b, c, d, e, f] : Fin 6 → α) 0 = a := rfl

theorem vec6_one {α : Type} (a b c d e f : α) : (![a, b, c, d, e, f] : Fin 6 → α) 1 = b := rfl

theorem vec6_two {α : Type} (a b c d e f : α) : (![a, b, c, d, e, f] : Fin 6 → α) 2 = c := rfl

theorem vec6_three {α : Type} (a b c d e f : α) : (![a, b, c, d, e, f] : Fin 6 → α) 3 = d := rfl

theorem vec6_four {α : Type} (a b c d e f : α) : (![a, b, c, d, e, f] : Fin 6 → α) 4 = e := rfl

theorem vec6_five {α : Type} (a b c d e f : α) : (![a, b, c, d, e, f] : Fin 6 → α) 5 = f := rfl

/-- Counts from `mock_input_file`, pivoted to species × subcommunity:
species 1..3 have one individual in subcommunity 1, species 4..6 one in
subcommunity 2. -/
noncomputable def test_counts : Matrix (Fin 6) (Fin 2) ℝ :=
  !![1, 0; 1, 0; 1, 0; 0, 1; 0, 1; 0, 1]

/-- Similarity matrix from `mock_matrix_file`: self-similarity 1.0,
within-subcommunity off-diagonal similarity 0.5, cross-subcommunity
similarity 0.7. -/
noncomputable def test_similarity : Matrix (Fin 6) (Fin 6) ℝ :=
  !![1, 0.5, 0.5, 0.7, 0.7, 0.7;
     0.5, 1, 0.5, 0.7, 0.7, 0.7;
     0.5, 0.5, 1, 0.7, 0.7, 0.7;
     0.7, 0.7, 0.7, 1, 0.5, 0.5;
     0.7, 0.7, 0.7, 0.5, 1, 0.5;
     0.7, 0.7, 0.7, 0.5, 0.5, 1]

/-- The metacommunity the test assembles from the two files. -/
noncomputable def test_metacommunity : MetacommunityModel 6 2 :=
  MetacommunityModel.mk test_similarity test_counts

/-- The similarity matrix the claim describes instead: within-subcommunity
pairwise similarity 1.0 (and cross-subcommunity 0.7). -/
noncomputable def claimed_similarity : Matrix (Fin 6) (Fin 6) ℝ :=
  !![1, 1, 1, 0.7, 0.7, 0.7;
     1, 1, 1, 0.7, 0.7, 0.7;
     1, 1, 1, 0.7, 0.7, 0.7;
     0.7, 0.7, 0.7, 1, 1, 1;
     0.7, 0.7, 0.7, 1, 1, 1;
     0.7, 0.7, 0.7, 1, 1, 1]

/-- The metacommunity on the claimed similarity matrix. -/
noncomputable def claimed_metacommunity : MetacommunityModel 6 2 :=
  MetacommunityModel.mk claimed_similarity test_counts

theorem ev_total (Z : Matrix (Fin 6) (Fin 6) ℝ) :
    (MetacommunityModel.mk Z test_counts).total_abundance = 6 := by
  simp only [MetacommunityModel.total_abundance, test_counts, Fin.sum_univ_six,
    Fin.sum_univ_two, Matrix.of_apply, vec2_zero, vec2_one, vec6_zero, vec6_one,
    vec6_two, vec6_three, vec6_four, vec6_five]
  norm_num

theorem ev_sub_abund (Z : Matrix (Fin 6) (Fin 6) ℝ) (i : Fin 6) (j : Fin 2) :
    (MetacommunityModel.mk Z test_counts).subcommunity_abundance i j =
      test_counts i j / 6 := by
  unfold MetacommunityModel.subcommunity_abundance
  rw [ev_total]

theorem ev_meta_abund (Z : Matrix (Fin 6) (Fin 6) ℝ) (i : Fin 6) :
    (MetacommunityModel.mk Z test_counts).metacommunity_abundance i = 1 / 6 := by
  unfold MetacommunityModel.metacommunity_abundance
  simp only [ev_sub_abund]
  fin_cases i <;>
    · simp only [test_counts, Fin.sum_univ_two, Matrix.of_apply, vec2_zero, vec2_one,
        vec6_zero, vec6_one, vec6_two, vec6_three, vec6_four, vec6_five]
      norm_num

theorem ev_norm_const (Z : Matrix (Fin 6) (Fin 6) ℝ) (j : Fin 2) :
    (MetacommunityModel.mk Z test_counts).subcommunity_normalizing_constants j =
      1 / 2 := by
  unfold MetacommunityModel.subcommunity_normalizing_constants
  simp only [ev_sub_abund]
  fin_cases j <;>
    · simp only [test_counts, Fin.sum_univ_six, Matrix.of_apply, vec2_zero, vec2_one,
        vec6_zero, vec6_one, vec6_two, vec6_three, vec6_four, vec6_five]
      norm_num

theorem ev_norm_abund (Z : Matrix (Fin 6) (Fin 6) ℝ) (i : Fin 6) (j : Fin 2) :
    (MetacommunityModel.mk Z test_counts).normalized_subcommunity_abundance i j =
      test_counts i j / 3 := by
  unfold MetacommunityModel.normalized_subcommunity_abundance
  rw [ev_sub_abund, ev_norm_const]
  ring

theorem power_mean_one {ι : Type} [Fintype ι] (w v : ι → ℝ) :
    power_mean 1 w v = ∑ i, w i * v i := by
  unfold power_mean
  rw [if_neg one_ne_zero]
  have h1 : (1 : ℝ) / 1 = 1 := by norm_num
  rw [h1, Real.rpow_one]
  refine Finset.sum_congr rfl fun i _ => ?_
  by_cases hv : v i = 0
  · rw [if_pos hv, hv, mul_zero]
  · rw [if_neg hv, Real.rpow_one]

theorem power_mean_viewpoint_zero {ι : Type} [Fintype ι] (w v : ι → ℝ) :
    power_mean_viewpoint (Viewpoint.ofReal 0) w v = ∑ i, w i * v i := by
  show power_mean (1 - 0) w v = _
  rw [show (1 : ℝ) - 0 = 1 by norm_num, power_mean_one]

/-- The subcommunity weighted similarities of the test metacommunity. -/
noncomputable def test_sub_sim : Matrix (Fin 6) (Fin 2) ℝ :=
  !![1/3, 7/20; 1/3, 7/20; 1/3, 7/20; 7/20, 1/3; 7/20, 1/3; 7/20, 1/3]

/-- The normalized subcommunity weighted similarities of the test
metacommunity. -/
noncomputable def test_norm_sub_sim : Matrix (Fin 6) (Fin 2) ℝ :=
  !![2/3, 7/10; 2/3, 7/10; 2/3, 7/10; 7/10, 2/3; 7/10, 2/3; 7/10, 2/3]

theorem cons_val_five {α : Type} {m : ℕ} (x : α)
    (u : Fin m.succ.succ.succ.succ.succ → α) :
    Matrix.vecCons x u 5 =
      Matrix.vecHead (Matrix.vecTail (Matrix.vecTail (Matrix.vecTail (Matrix.vecTail u)))) :=
  rfl

theorem ev_meta_sim (i : Fin 6) :
    test_metacommunity.metacommunity_similarity i = 41 / 60 := by
  unfold test_metacommunity MetacommunityModel.metacommunity_similarity
  simp only [ev_meta_abund]
  fin_cases i <;> norm_num [cons_val_five, test_similarity, Fin.sum_univ_six]

theorem ev_sub_sim (i : Fin 6) (j : Fin 2) :
    test_metacommunity.subcommunity_similarity i j = test_sub_sim i j := by
  unfold test_metacommunity MetacommunityModel.subcommunity_similarity
  simp only [ev_sub_abund]
  fin_cases i <;> fin_cases j <;>
    norm_num [cons_val_five, test_similarity, test_counts, test_sub_sim,
      Fin.sum_univ_six, Matrix.vecHead, Matrix.vecTail]

theorem ev_norm_sub_sim (i : Fin 6) (j : Fin 2) :
    test_metacommunity.normalized_subcommunity_similarity i j =
      test_norm_sub_sim i j := by
  unfold test_metacommunity MetacommunityModel.normalized_subcommunity_similarity
  simp only [ev_norm_abund]
  fin_cases i <;> fin_cases j <;>
    norm_num [cons_val_five, test_similarity, test_counts, test_norm_sub_sim,
      Fin.sum_univ_six, Matrix.vecHead, Matrix.vecTail]

theorem ev_norm_abund_test (i : Fin 6) (j : Fin 2) :
    test_metacommunity.normalized_subcommunity_abundance i j = test_counts i j / 3 :=
  ev_norm_abund test_similarity i j

theorem ev_norm_const_test (j : Fin 2) :
    test_metacommunity.subcommunity_normalizing_constants j = 1 / 2 :=
  ev_norm_const test_similarity j

theorem ev_alpha (j : Fin 2) :
    test_metacommunity.subcommunity_alpha (Viewpoint.ofReal 0) j = 3 := by
  unfold MetacommunityModel.subcommunity_alpha MetacommunityModel.subcommunity_measure
  rw [power_mean_viewpoint_zero]
  simp only [safe_divide, ev_norm_abund_test, ev_sub_sim]
  fin_cases j <;>
    norm_num [cons_val_five, test_counts, test_sub_sim, Fin.sum_univ_six,
      Matrix.vecHead, Matrix.vecTail]

theorem ev_rho (j : Fin 2) :
    test_metacommunity.subcommunity_rho (Viewpoint.ofReal 0) j = 2.05 := by
  unfold MetacommunityModel.subcommunity_rho MetacommunityModel.subcommunity_measure
  rw [power_mean_viewpoint_zero]
  simp only [safe_divide, ev_norm_abund_test, ev_sub_sim, ev_meta_sim]
  fin_cases j <;>
    norm_num [cons_val_five, test_counts, test_sub_sim, Fin.sum_univ_six,
      Matrix.vecHead, Matrix.vecTail]

theorem ev_gamma (j : Fin 2) :
    test_metacommunity.subcommunity_gamma (Viewpoint.ofReal 0) j = 60 / 41 := by
  unfold MetacommunityModel.subcommunity_gamma MetacommunityModel.subcommunity_measure
  rw [power_mean_viewpoint_zero]
  simp only [safe_divide, ev_norm_abund_test, ev_meta_sim]
  fin_cases j <;>
    norm_num [cons_val_five, test_counts, Fin.sum_univ_six,
      Matrix.vecHead, Matrix.vecTail]

theorem ev_norm_alpha (j : Fin 2) :
    test_metacommunity.normalized_subcommunity_alpha (Viewpoint.ofReal 0) j = 1.5 := by
  unfold MetacommunityModel.normalized_subcommunity_alpha
    MetacommunityModel.subcommunity_measure
  rw [power_mean_viewpoint_zero]
  simp only [safe_divide, ev_norm_abund_test, ev_norm_sub_sim]
  fin_cases j <;>
    norm_num [cons_val_five, test_counts, test_norm_sub_sim, Fin.sum_univ_six,
      Matrix.vecHead, Matrix.vecTail]

theorem ev_norm_rho (j : Fin 2) :
    test_metacommunity.normalized_subcommunity_rho (Viewpoint.ofReal 0) j = 1.025 := by
  unfold MetacommunityModel.normalized_subcommunity_rho
    MetacommunityModel.subcommunity_measure
  rw [power_mean_viewpoint_zero]
  simp only [safe_divide, ev_norm_abund_test, ev_norm_sub_sim, ev_meta_sim]
  fin_cases j <;>
    norm_num [cons_val_five, test_counts, test_norm_sub_sim, Fin.sum_univ_six,
      Matrix.vecHead, Matrix.vecTail]

/-- C1 (amended): for the six-species metacommunity of the end-to-end
test (two subcommunities of three species, equal counts 1,
self-similarity 1.0, within-subcommunity off-diagonal similarity 0.5,
cross-subcommunity similarity 0.7), the subcommunity measures at
viewpoint 0 are alpha = 3.0, rho = 2.05, beta ≈ 0.487805
(= 20/41), gamma ≈ 1.463415 (= 60/41), normalized alpha = 1.5,
normalized rho = 1.025, normalized beta ≈ 0.97561 (= 40/41),
identically for both subcommunities. -/
theorem C1_end_to_end_example (j : Fin 2) :
    test_metacommunity.subcommunity_alpha (Viewpoint.ofReal 0) j = 3 ∧
    test_metacommunity.subcommunity_rho (Viewpoint.ofReal 0) j = 2.05 ∧
    |test_metacommunity.subcommunity_beta (Viewpoint.ofReal 0) j - 0.487805| < 1e-6 ∧
    |test_metacommunity.subcommunity_gamma (Viewpoint.ofReal 0) j - 1.463415| < 1e-6 ∧
    test_metacommunity.normalized_subcommunity_alpha (Viewpoint.ofReal 0) j = 1.5 ∧
    test_metacommunity.normalized_subcommunity_rho (Viewpoint.ofReal 0) j = 1.025 ∧
    |test_metacommunity.normalized_subcommunity_beta (Viewpoint.ofReal 0) j - 0.97561|
      < 1e-6 := by
  refine ⟨ev_alpha j, ev_rho j, ?_, ?_, ev_norm_alpha j, ev_norm_rho j, ?_⟩
  · have hb : test_metacommunity.subcommunity_beta (Viewpoint.ofReal 0) j =
        1 / test_metacommunity.subcommunity_rho (Viewpoint.ofReal 0) j := rfl
    rw [hb, ev_rho j, abs_lt]
    constructor <;> norm_num
  · rw [ev_gamma j, abs_lt]
    constructor <;> norm_num
  · have hb : test_metacommunity.normalized_subcommunity_beta (Viewpoint.ofReal 0) j =
        1 / test_metacommunity.normalized_subcommunity_rho (Viewpoint.ofReal 0) j := rfl
    rw [hb, ev_norm_rho j, abs_lt]
    constructor <;> norm_num

theorem ev_claimed_sub_sim (i : Fin 6) :
    claimed_metacommunity.subcommunity_similarity i 0 =
      (![1/2, 1/2, 1/2, 7/20, 7/20, 7/20] : Fin 6 → ℝ) i := by
  unfold claimed_metacommunity MetacommunityModel.subcommunity_similarity
  simp only [ev_sub_abund]
  fin_cases i <;>
    norm_num [cons_val_five, claimed_similarity, test_counts, Fin.sum_univ_six,
      Matrix.vecHead, Matrix.vecTail]

/-- C1 counterexample to the claim as stated: on the similarity matrix
the claim describes (within-subcommunity pairwise similarity 1.0 rather
than the 0.5 of the test file), subcommunity alpha at viewpoint 0 is 2,
not the claimed 3. -/
theorem C1_counterexample :
    claimed_metacommunity.subcommunity_alpha (Viewpoint.ofReal 0) 0 ≠ 3 := by
  have h : claimed_metacommunity.subcommunity_alpha (Viewpoint.ofReal 0) 0 = 2 := by
    unfold MetacommunityModel.subcommunity_alpha MetacommunityModel.subcommunity_measure
    rw [power_mean_viewpoint_zero]
    have hn : ∀ i j, claimed_metacommunity.normalized_subcommunity_abundance i j =
        test_counts i j / 3 := ev_norm_abund claimed_similarity
    simp only [safe_divide, hn, ev_claimed_sub_sim]
    norm_num [cons_val_five, test_counts, Fin.sum_univ_six,
      Matrix.vecHead, Matrix.vecTail]
  rw [h]
  norm_num

theorem C6_beta_is_reciprocal_rho_witness :
    test_metacommunity.subcommunity_beta (Viewpoint.ofReal 0) 0 =
      1 / test_metacommunity.subcommunity_rho (Viewpoint.ofReal 0) 0 ∧
    test_metacommunity.normalized_subcommunity_beta (Viewpoint.ofReal 0) 0 =
      1 / test_metacommunity.normalized_subcommunity_rho (Viewpoint.ofReal 0) 0 :=
  C6_beta_is_reciprocal_rho test_metacommunity (Viewpoint.ofReal 0) 0
    (by rw [ev_rho]; norm_num) (by rw [ev_norm_rho]; norm_num)
